import Mathlib

/-!
Shallow embedding of the Mc_Multihost core (Utils/McJava.py,
Utils/UtilsServer.py, Classes/MinecraftServer.py) and proofs about it.

Filesystem-touching code is modelled over an explicit filesystem record
(`FS`); paths are lists of components relative to the directory the
function operates on.  Regular-expression searches from the source are
modelled as executable scanners over `List Char` that follow Python's
leftmost-search / greedy-with-backtracking semantics on the concrete
patterns used by the code.
-/

namespace McMultihost

/-- Filesystem oracle: paths are component lists relative to a root
directory (`[]` is the root itself). `listDir` gives entries in the
order `os.listdir` yields them; `readLines` gives the lines of a text
file as the code would iterate them; `readFile` its raw content. -/
structure FS where
  isDir : List String → Bool
  isFile : List String → Bool
  listDir : List String → List String
  readLines : List String → List String
  readFile : List String → String

/-! ## Regex models (McJava.py patterns) -/

/-- Numeric value of a digit run (as Python `int` of the matched group). -/
def digitsToNat (ds : List Char) : Nat :=
  ds.foldl (fun a c => 10 * a + (c.toNat - 48)) 0

/-- Split off the maximal leading digit run (`\d+` greedy). -/
def spanDigits (cs : List Char) : List Char × List Char :=
  (cs.takeWhile Char.isDigit, cs.dropWhile Char.isDigit)

/-- Match `\d+\.\d+(?:\.\d+)?` at the head of `cs`, greedily.  Returns
the matched characters, the numeric `(major, minor, patch)` triple
(patch defaulting to 0 when the optional group is absent), and the rest
of the input.  Nothing follows the pattern here, so the greedy match of
the optional patch group never needs to backtrack. -/
def matchVerAt (cs : List Char) : Option (List Char × (Nat × Nat × Nat) × List Char) :=
  match spanDigits cs with
  | ([], _) => none
  | (d1, r1) =>
    match r1 with
    | '.' :: r2 =>
      match spanDigits r2 with
      | ([], _) => none
      | (d2, r3) =>
        match r3 with
        | '.' :: r4 =>
          match spanDigits r4 with
          | ([], _) => some (d1 ++ '.' :: d2, (digitsToNat d1, digitsToNat d2, 0), r3)
          | (d3, r5) =>
            some (d1 ++ '.' :: d2 ++ '.' :: d3,
                  (digitsToNat d1, digitsToNat d2, digitsToNat d3), r5)
        | _ => some (d1 ++ '.' :: d2, (digitsToNat d1, digitsToNat d2, 0), r3)
    | _ => none

/-- Match `(\d+\.\d+(?:\.\d+)?)` followed by the literal `post` at the
head of `cs`, returning the captured group.  The optional patch group is
tried greedily first and dropped (regex backtracking) when `post` does
not follow it. -/
def matchVerThenLit (post : List Char) (cs : List Char) : Option (List Char) :=
  match spanDigits cs with
  | ([], _) => none
  | (d1, r1) =>
    match r1 with
    | '.' :: r2 =>
      match spanDigits r2 with
      | ([], _) => none
      | (d2, r3) =>
        let withPatch : Option (List Char) :=
          match r3 with
          | '.' :: r4 =>
            match spanDigits r4 with
            | ([], _) => none
            | (d3, r5) =>
              if post.isPrefixOf r5 then some (d1 ++ '.' :: d2 ++ '.' :: d3) else none
          | _ => none
        match withPatch with
        | some g => some g
        | none => if post.isPrefixOf r3 then some (d1 ++ '.' :: d2) else none
    | _ => none

/-- `re.search` positional scan: try the matcher at every suffix, left
to right (leftmost match wins). -/
def searchSuffixes {α : Type} (f : List Char → Option α) : List Char → Option α
  | [] => f []
  | c :: cs =>
    match f (c :: cs) with
    | some a => some a
    | none => searchSuffixes f cs

/-- `_parse_version_num`: `_VER_RE.search` on the text, yielding the
numeric triple. -/
def parseVersionNum (s : String) : Option (Nat × Nat × Nat) :=
  searchSuffixes (fun cs => (matchVerAt cs).map (fun x => x.2.1)) s.data

/-- `_fmt_mc_version`: `'maj.min'`, or `'maj.min.patch'` when patch is
nonzero. -/
def fmtMcVersion (p : Nat × Nat × Nat) : String :=
  if p.2.2 ≠ 0 then
    toString p.1 ++ "." ++ toString p.2.1 ++ "." ++ toString p.2.2
  else toString p.1 ++ "." ++ toString p.2.1

/-- Pattern `pre(\d+\.\d+(?:\.\d+)?)post` matched at the head: the
literal `pre`, then the captured version, then the literal `post`. -/
def matchLitVerLit (pre post : List Char) (cs : List Char) : Option (List Char) :=
  if pre.isPrefixOf cs then matchVerThenLit post (cs.drop pre.length) else none

/-- `re.search(r"server-(\d+\.\d+(?:\.\d+)?)\.jar", f)` group 1. -/
def searchServerJar (f : String) : Option String :=
  (searchSuffixes (matchLitVerLit "server-".data ".jar".data) f.data).map List.asString

/-- `re.search(r"minecraft_server\.(\d+\.\d+(?:\.\d+)?)\.jar", f)` group 1. -/
def searchMinecraftServerJar (f : String) : Option String :=
  (searchSuffixes (matchLitVerLit "minecraft_server.".data ".jar".data) f.data).map List.asString

/-- `re.search(r"forge-(\d+\.\d+(?:\.\d+)?)-", f)` group 1. -/
def searchForgeJar (f : String) : Option String :=
  (searchSuffixes (matchLitVerLit "forge-".data "-".data) f.data).map List.asString

/-- `re.search(r"paper(?:clip)?-(\d+\.\d+(?:\.\d+)?)-", f)` group 1:
the optional `clip` is tried greedily first. -/
def searchPaperJar (f : String) : Option String :=
  (searchSuffixes (fun cs =>
    match matchLitVerLit "paperclip-".data "-".data cs with
    | some g => some g
    | none => matchLitVerLit "paper-".data "-".data cs) f.data).map List.asString

/-- Lazy scan for `.*?(\d+\.\d+(?:\.\d+)?)`: the first position where a
version matches, with `.` not crossing a newline.  The trailing
`(?:[^\d]|$)` of the fabric pattern is always satisfied after a maximal
digit run. -/
def scanVerNoNl : List Char → Option (List Char)
  | [] => none
  | c :: cs =>
    match matchVerAt (c :: cs) with
    | some (g, _, _) => some g
    | none => if c = '\n' then none else scanVerNoNl cs

/-- `re.search(r"fabric-.*?(\d+\.\d+(?:\.\d+)?)(?:[^\d]|$)", f)` group 1. -/
def searchFabricJar (f : String) : Option String :=
  (searchSuffixes (fun cs =>
    if "fabric-".data.isPrefixOf cs then scanVerNoNl (cs.drop 7) else none) f.data).map
    List.asString

/-- `re.search(r"Starting minecraft server version (\d+\.\d+(?:\.\d+)?)", line)`
group 1. -/
def searchBanner (line : String) : Option String :=
  (searchSuffixes (fun cs =>
    let lit := "Starting minecraft server version ".data
    if lit.isPrefixOf cs then (matchVerAt (cs.drop lit.length)).map (fun x => x.1)
    else none) line.data).map List.asString

/-! ## `detect_mc_version` (McJava.py lines 35–117) -/

/-- Body of the heuristic-1 loop for one entry of `versions/`: skip
non-directories; a parsable directory name wins (formatted), otherwise
the first `server-<ver>.jar` inside (raw captured group). -/
def h1Entry (fs : FS) (entry : String) : Option String :=
  if fs.isDir ["versions", entry] then
    match parseVersionNum entry with
    | some p => some (fmtMcVersion p)
    | none => (fs.listDir ["versions", entry]).findSome? searchServerJar
  else none

/-- Heuristic 1: `versions/<ver>/` manifests. -/
def heuristic1 (fs : FS) : Option String :=
  if fs.isDir ["versions"] then (fs.listDir ["versions"]).findSome? (h1Entry fs)
  else none

/-- Heuristic 2: known jar name patterns in the installation root,
tried in the source's order for each `.jar` entry. -/
def heuristic2 (fs : FS) : Option String :=
  (fs.listDir []).findSome? (fun f =>
    if ".jar".data.isSuffixOf f.data then
      match searchMinecraftServerJar f with
      | some v => some v
      | none =>
        match searchForgeJar f with
        | some v => some v
        | none =>
          match searchPaperJar f with
          | some v => some v
          | none => searchFabricJar f
    else none)

/-- Heuristic 3: a root `.json` file whose name parses as a version
(formatted). -/
def heuristic3 (fs : FS) : Option String :=
  (fs.listDir []).findSome? (fun f =>
    if ".json".data.isSuffixOf f.data then (parseVersionNum f).map fmtMcVersion else none)

/-- Heuristic 4: scan `logs/latest.log` for the startup banner. -/
def heuristic4 (fs : FS) : Option String :=
  if fs.isFile ["logs", "latest.log"] then
    (fs.readLines ["logs", "latest.log"]).findSome? searchBanner
  else none

/-- `detect_mc_version`: a non-directory path yields `None`; otherwise
the four heuristics are tried in order, first hit wins. -/
def detect_mc_version (fs : FS) : Option String :=
  if fs.isDir [] then
    match heuristic1 fs with
    | some v => some v
    | none =>
      match heuristic2 fs with
      | some v => some v
      | none =>
        match heuristic3 fs with
        | some v => some v
        | none => heuristic4 fs
  else none

/-! ## `java_major_for_mc` (McJava.py lines 120–143) -/

/-- `java_major_for_mc`: map a version string to the required Java
major, defaulting to 17 when no version-like token parses. -/
def java_major_for_mc (mc_version : String) : Nat :=
  match parseVersionNum mc_version with
  | none => 17
  | some (_, minor, patch) =>
    if minor ≤ 16 then 8
    else if minor = 17 then 16
    else if minor = 20 ∧ 5 ≤ patch then 21
    else if 21 ≤ minor then 21
    else 17

/-- `resolve_java_for_server` (McJava.py lines 316–326).  The runtime
binary lookup `find_java_for_major` (environment and host probing) is
passed in as an oracle `findJava`; the tuple plumbing of the resolver
itself is translated exactly, including the falsy check on the detected
version string. -/
def resolve_java_for_server (fs : FS) (findJava : Nat → Option String) :
    Option String × Option String × Option Nat :=
  match detect_mc_version fs with
  | none => (none, none, none)
  | some mc =>
    if mc = "" then (none, none, none)
    else
      let major := java_major_for_mc mc
      (findJava major, some mc, some major)

/-! ## Data model (Classes/MinecraftServer.py) -/

/-- Outcome of `os.kill(pid, 0)` in `is_running`'s pid probe. -/
inductive KillOutcome
  | noSuchProcess
  | permissionError
  | ok
  | otherError
deriving DecidableEq

/-- The child's standard-input channel owned by a spawned handle.
`buffer` records the bytes written and flushed so far; `broken` makes
writes raise. -/
structure Channel where
  broken : Bool
  buffer : String
deriving DecidableEq

/-- A `subprocess.Popen` handle owned by this session.  `pollNone`
models `poll() is None` (child still running); `stdin` the pipe, when
one was requested. -/
structure ProcHandle where
  pollNone : Bool
  stdin : Option Channel
deriving DecidableEq

/-- The `MinecraftServer` dataclass fields after `__post_init__`. -/
structure MinecraftServer where
  path : String
  xmx : Int
  xms : Int
  name : Option String := none
  pid : Int := 0
  proc : Option ProcHandle := none
  log_path : Option String := none
deriving DecidableEq

/-- A constructor argument for the heap fields: either something
`int()` converts (carrying its value) or something it raises on. -/
inductive HeapInput
  | intVal (n : Int)
  | nonConvertible
deriving DecidableEq

/-- The heap normalization in `__post_init__`: both fields become their
integer values, or both become `-1` if either conversion raises. -/
def postInitHeaps : HeapInput → HeapInput → Int × Int
  | .intVal a, .intVal b => (a, b)
  | _, _ => (-1, -1)

/-- `os.path.basename` of an (absolute, normalized) path. -/
def basename (path : String) : String :=
  ((path.data.reverse.takeWhile (· ≠ '/')).reverse).asString

/-- Dataclass construction followed by `__post_init__`: default the
name to the folder name when absent or empty (Python falsiness), and
normalize the heap fields. -/
def mkMinecraftServer (path : String) (xmx xms : HeapInput)
    (name : Option String := none) : MinecraftServer :=
  let heaps := postInitHeaps xmx xms
  let nm := match name with
    | some n => if n = "" then basename path else n
    | none => basename path
  { path := path, xmx := heaps.1, xms := heaps.2, name := some nm }

/-- Host oracle for the pid-based liveness probe. -/
structure ProbeWorld where
  killProbe : Int → KillOutcome

/-- `is_running`: an owned handle answers by `poll()`; otherwise a
recorded pid is probed with signal 0, where only "no such process"
means dead; no handle and no positive pid means not running. -/
def is_running (w : ProbeWorld) (s : MinecraftServer) : Bool :=
  match s.proc with
  | some p => p.pollNone
  | none =>
    if s.pid ≤ 0 then false
    else
      match w.killProbe s.pid with
      | .noSuchProcess => false
      | _ => true

/-- `send_command`: requires an owned handle with a stdin pipe and a
live (`poll()`-based) child; writes the newline-terminated command and
flushes; any raise (broken pipe) yields `-1` with nothing recorded. -/
def send_command (w : ProbeWorld) (s : MinecraftServer) (command : String) :
    Int × MinecraftServer :=
  match s.proc with
  | none => (-1, s)
  | some p =>
    match p.stdin with
    | none => (-1, s)
    | some ch =>
      if ¬ is_running w s then (-1, s)
      else if ch.broken then (-1, s)
      else
        let line := if "\n".data.isSuffixOf command.data then command else command ++ "\n"
        (0, { s with proc := some { p with stdin := some { ch with buffer := ch.buffer ++ line } } })

/-- `stop`: requires a recorded positive pid, then delegates to
`send_command "stop"`. -/
def stop (w : ProbeWorld) (s : MinecraftServer) : Int × MinecraftServer :=
  if s.pid ≤ 0 then (-1, s)
  else
    let r := send_command w s "stop"
    (if r.1 = 0 then 0 else -1, r.2)

/-! ## The `user_jvm_args.txt` rewrite (MinecraftServer.start, lines 150–167) -/

/-- Python `str.strip()` whitespace (ASCII part). -/
def isPySpace (c : Char) : Bool :=
  c == ' ' || c == '\t' || c == '\n' || c == '\r' || c == '\x0b' || c == '\x0c'

/-- `str.strip()`. -/
def pyStripL (cs : List Char) : List Char :=
  ((cs.dropWhile isPySpace).reverse.dropWhile isPySpace).reverse

/-- `l.strip().startswith("-Xmx")`. -/
def isXmxLine (l : List Char) : Bool := "-Xmx".data.isPrefixOf (pyStripL l)

/-- `l.strip().startswith("-Xms")`. -/
def isXmsLine (l : List Char) : Bool := "-Xms".data.isPrefixOf (pyStripL l)

/-- The `_keep` predicate of `start`: keep every line whose stripped
form starts with neither `-Xmx` nor `-Xms`. -/
def keepLineL (l : List Char) : Bool :=
  !(isXmxLine l || isXmsLine l)

/-- File iteration plus `rstrip("\n")` per line, accumulator-style:
lines are the maximal `'\n'`-free segments, a trailing newline ends the
last line rather than opening an empty one. -/
def splitLinesGo : List Char → List Char → List (List Char)
  | [], acc => [acc.reverse]
  | c :: rest, acc =>
    if c = '\n' then
      match rest with
      | [] => [acc.reverse]
      | _ :: _ => acc.reverse :: splitLinesGo rest []
    else splitLinesGo rest (c :: acc)

/-- Lines of a file's content as `for ln in fh` with `rstrip("\n")`
yields them (an empty file yields no lines). -/
def splitLines (cs : List Char) : List (List Char) :=
  if cs = [] then [] else splitLinesGo cs []

/-- `"\n".join(...)`. -/
def joinNl : List (List Char) → List Char
  | [] => []
  | [l] => l
  | l :: ls => l ++ '\n' :: joinNl ls

/-- `f"-Xmx{int(self.xmx)}G"`. -/
def xmxLine (n : Int) : List Char := "-Xmx".data ++ (toString n).data ++ ['G']

/-- `f"-Xms{int(self.xms)}G"`. -/
def xmsLine (n : Int) : List Char := "-Xms".data ++ (toString n).data ++ ['G']

/-- Filter the kept lines and append the fresh heap lines. -/
def rewriteJvmLines (xmx xms : Int) (lines : List (List Char)) : List (List Char) :=
  lines.filter keepLineL ++ [xmxLine xmx, xmsLine xms]

/-- The whole heap-arguments file rewrite: read lines, filter, append,
write back joined by newlines with a trailing newline. -/
def rewriteJvmFile (xmx xms : Int) (content : String) : String :=
  (joinNl (rewriteJvmLines xmx xms (splitLines content.data)) ++ ['\n']).asString

/-! ## `start` (MinecraftServer.py lines 65–202) -/

/-- Host oracle for one `start` call: the filesystem of the server
directory, the runtime lookup, whether the log directory/file could be
created, the run timestamp, the fate of the spawn (`none` = `Popen`
raised), the handle a successful spawn yields, and whether writing the
heap-arguments file succeeded. -/
structure StartWorld where
  fs : FS
  findJava : Nat → Option String
  makedirsOk : Bool
  openLogOk : Bool
  timestamp : String
  spawnPid : Option Int
  spawnedProc : ProcHandle
  jvmWriteOk : Bool

/-- What a `start` call returned and did: its return value, the
instance's fields afterwards, the spawned command (if any child was
created), and the heap-arguments content written (if any). -/
structure StartOutcome where
  ret : Int
  inst : MinecraftServer
  spawned : Option (List String)
  jvmArgsWritten : Option String
deriving DecidableEq

/-- The fixed launcher-script candidate list, in priority order. -/
def scriptCandidates : List String := ["run.sh", "serverstart.sh", "startserver.sh", "start.sh"]

/-- `start`: validate heaps, resolve the runtime (falling back to
`"java"`), pick jar or script launch, set up the log file, rewrite the
heap-arguments file for script launches, then spawn.  A `Popen` raise
is caught by the outer handler and yields `-1` (the log path set just
before remains set). -/
def start (w : StartWorld) (s : MinecraftServer) : StartOutcome :=
  if s.xmx ≤ 0 ∨ s.xms ≤ 0 ∨ s.xmx < s.xms then ⟨-1, s, none, none⟩
  else
    let resolved := resolve_java_for_server w.fs w.findJava
    let java_exe :=
      match resolved.1 with
      | some e => if e = "" then "java" else e
      | none => "java"
    let use_jar := w.fs.isFile ["server.jar"]
    let scriptName : Option String := scriptCandidates.find? (fun c => w.fs.isFile [c])
    if ¬ use_jar ∧ scriptName = none then ⟨-1, s, none, none⟩
    else
      let log_path :=
        s.path ++ (if w.makedirsOk then "/bot-logs" else "") ++ "/console-" ++ w.timestamp ++ ".log"
      let s1 := if w.openLogOk then { s with log_path := some log_path } else s
      if use_jar then
        let cmd := [java_exe, "-Xmx" ++ toString s.xmx ++ "G",
                    "-Xms" ++ toString s.xms ++ "G", "-jar", "server.jar", "nogui"]
        match w.spawnPid with
        | none => ⟨-1, s1, none, none⟩
        | some pid => ⟨pid, { s1 with pid := pid, proc := some w.spawnedProc }, some cmd, none⟩
      else
        let oldContent :=
          if w.fs.isFile ["user_jvm_args.txt"] then w.fs.readFile ["user_jvm_args.txt"] else ""
        let newContent := rewriteJvmFile s.xmx s.xms oldContent
        let written := if w.jvmWriteOk then some newContent else none
        let cmd := ["./" ++ scriptName.getD "", "nogui"]
        match w.spawnPid with
        | none => ⟨-1, s1, none, written⟩
        | some pid => ⟨pid, { s1 with pid := pid, proc := some w.spawnedProc }, some cmd, written⟩

/-! ## Instance Registry and Memory Admission (Utils/UtilsServer.py) -/

/-- The Python sort key `(s.name or "").lower()` (ASCII case fold),
as a character list. -/
def serverKey (s : MinecraftServer) : List Char :=
  (s.name.getD "").data.map Char.toLower

/-- Lexicographic ≤ on code-point sequences — Python's `str`
comparison, which `list.sort` applies to the keys. -/
def listLeB : List Char → List Char → Bool
  | [], _ => true
  | _ :: _, [] => false
  | a :: as, b :: bs =>
    if a.toNat < b.toNat then true
    else if b.toNat < a.toNat then false
    else listLeB as bs

/-- The order `list.sort(key=...)` sorts the instances by. -/
def serverLe (a b : MinecraftServer) : Prop := listLeB (serverKey a) (serverKey b) = true

instance : DecidableRel serverLe := fun a b =>
  inferInstanceAs (Decidable (listLeB (serverKey a) (serverKey b) = true))

instance : IsTotal MinecraftServer serverLe :=
  ⟨fun a b => by
    unfold serverLe
    generalize serverKey a = x
    generalize serverKey b = y
    induction x generalizing y with
    | nil => left; rfl
    | cons c cs ih =>
      cases y with
      | nil => right; rfl
      | cons d ds =>
        simp only [listLeB]
        rcases Nat.lt_trichotomy c.toNat d.toNat with h | h | h
        · left; simp [h]
        · have h1 : ¬ c.toNat < d.toNat := by omega
          have h2 : ¬ d.toNat < c.toNat := by omega
          simpa [h1, h2] using ih ds
        · right; simp [h, Nat.lt_asymm h]⟩

instance : IsTrans MinecraftServer serverLe :=
  ⟨fun a b c => by
    unfold serverLe
    generalize serverKey a = x
    generalize serverKey b = y
    generalize serverKey c = z
    induction x generalizing y z with
    | nil => intro _ _; rfl
    | cons e es ih =>
      intro hxy hyz
      cases y with
      | nil => simp [listLeB] at hxy
      | cons f fs =>
        cases z with
        | nil => simp [listLeB] at hyz
        | cons g gs =>
          simp only [listLeB] at hxy hyz ⊢
          split_ifs at hxy hyz ⊢ <;>
            first
              | rfl
              | omega
              | exact ih fs gs hxy hyz⟩

/-- `get_servers`: one instance per direct subdirectory of the root,
built with the fixed defaults `xmx=4, xms=2`, then sorted by
case-insensitive name; a missing root yields `[]`. -/
def get_servers (fs : FS) (rootPath : String) : List MinecraftServer :=
  if ¬ fs.isDir [] then []
  else
    let servers := (fs.listDir []).filterMap (fun entry =>
      if fs.isDir [entry] then
        some (mkMinecraftServer (rootPath ++ "/" ++ entry) (.intVal 4) (.intVal 2) (some entry))
      else none)
    servers.insertionSort serverLe

/-- `get_available_memory_gb`: start from the hard-coded 32 GB of host
memory, keep `reserve_gb` free, subtract the `xmx` of every running
instance, and floor at 0. -/
def get_available_memory_gb (w : ProbeWorld) (servers : List MinecraftServer)
    (reserve_gb : Int) : Int :=
  let total_gb : Int := 32
  if total_gb ≤ 0 then 0
  else
    let running_xmx := servers.foldl (fun acc s => if is_running w s then acc + s.xmx else acc) 0
    let avail := total_gb - reserve_gb - running_xmx
    if 0 < avail then avail else 0

/-! ## Concrete fixtures for witnesses and counterexamples -/

/-- An empty filesystem: nothing exists. -/
def fsEmpty : FS :=
  ⟨fun _ => false, fun _ => false, fun _ => [], fun _ => [], fun _ => ""⟩

/-- A benign host for `start` calls. -/
def wBase : StartWorld :=
  { fs := fsEmpty, findJava := fun _ => none, makedirsOk := true, openLogOk := true
    timestamp := "20240101-000000", spawnPid := none, spawnedProc := ⟨true, none⟩
    jvmWriteOk := true }

/-- An instance with `xmx < xms` (invalid memory settings). -/
def sBadHeap : MinecraftServer := { path := "/srv/a", xmx := 1, xms := 2, name := some "a" }

/-- A pid-probe world where every signal delivery succeeds. -/
def probeW : ProbeWorld := ⟨fun _ => .ok⟩

/-- An instance started by this session: owned live handle with an
intact stdin pipe. -/
def sOwned : MinecraftServer :=
  { path := "/srv/a", xmx := 4, xms := 2, name := some "a", pid := 7
    proc := some ⟨true, some ⟨false, ""⟩⟩ }

/-- An instance only discovered (pid known, no owned handle). -/
def sForeign : MinecraftServer :=
  { path := "/srv/b", xmx := 4, xms := 2, name := some "b", pid := 4242 }

/-- A running instance with an 8 GB max heap. -/
def sRun8 : MinecraftServer :=
  { path := "/srv/c", xmx := 8, xms := 2, name := some "c", proc := some ⟨true, none⟩ }

/-- Installation with both a `versions/1.20.4/` manifest directory and
a root `paper-1.19.2-*.jar` archive. -/
def fsC4 : FS :=
  { isDir := fun p => p = [] || p = ["versions"] || p = ["versions", "1.20.4"]
    isFile := fun _ => false
    listDir := fun p =>
      if p = [] then ["paper-1.19.2-123.jar"]
      else if p = ["versions"] then ["1.20.4"] else []
    readLines := fun _ => [], readFile := fun _ => "" }

/-- Installation whose only artifact is `minecraft_server.1.20.0.jar`
in the root. -/
def fsC8 : FS :=
  { isDir := fun p => p = [], isFile := fun _ => false
    listDir := fun p => if p = [] then ["minecraft_server.1.20.0.jar"] else []
    readLines := fun _ => [], readFile := fun _ => "" }

/-- Installation whose root holds a version-named `.json` file. -/
def fsJson : FS :=
  { isDir := fun p => p = [], isFile := fun _ => false
    listDir := fun p => if p = [] then ["1.20.4.json"] else []
    readLines := fun _ => [], readFile := fun _ => "" }

/-- A servers root with three server subdirectories and a stray file. -/
def fsRoot : FS :=
  { isDir := fun p => p = [] || p = ["B"] || p = ["a"] || p = ["c"]
    isFile := fun _ => false
    listDir := fun p => if p = [] then ["c", "B", "a", "x.txt"] else []
    readLines := fun _ => [], readFile := fun _ => "" }

/-- Heap-arguments content whose first line begins with whitespace
before the max-heap flag. -/
def badContent : String := "  -Xmx2G\nkeep\n"

/-! ## Theorems -/

/-- C1: for every pair of heap values with `maxHeap < initHeap`, or
with either value ≤ 0, `start` returns the failure sentinel `-1`, no
child process is spawned, no heap-arguments file is written, and no
instance field (pid, process handle, log path included) is mutated. -/
theorem C1_start_invalid_heap_fails_cleanly (w : StartWorld) (s : MinecraftServer)
    (h : s.xmx < s.xms ∨ s.xmx ≤ 0 ∨ s.xms ≤ 0) :
    start w s = ⟨-1, s, none, none⟩ := by
  have h' : s.xmx ≤ 0 ∨ s.xms ≤ 0 ∨ s.xmx < s.xms := by tauto
  unfold start
  rw [if_pos h']

/-- Witness for C1 at a concrete world and instance with `xmx < xms`. -/
theorem C1_start_invalid_heap_fails_cleanly_witness :
    (sBadHeap.xmx < sBadHeap.xms ∨ sBadHeap.xmx ≤ 0 ∨ sBadHeap.xms ≤ 0) ∧
    start wBase sBadHeap = ⟨-1, sBadHeap, none, none⟩ :=
  ⟨Or.inl (by decide),
   C1_start_invalid_heap_fails_cleanly wBase sBadHeap (Or.inl (by decide))⟩

/-- C2: the version-to-required-Java-major mapping sends minor ≤ 16 to
8, minor 17 to 16, minor 18–20 (except 20 with patch ≥ 5) to 17, 20
with patch ≥ 5 to 21, minor ≥ 21 to 21; any string with no
version-like token maps to 17; and the five quoted examples map as the
claim lists them. -/
theorem C2_java_major_mapping :
    (∀ s maj minor patch, parseVersionNum s = some (maj, minor, patch) →
      (minor ≤ 16 → java_major_for_mc s = 8) ∧
      (minor = 17 → java_major_for_mc s = 16) ∧
      (18 ≤ minor → minor ≤ 20 → ¬(minor = 20 ∧ 5 ≤ patch) → java_major_for_mc s = 17) ∧
      (minor = 20 → 5 ≤ patch → java_major_for_mc s = 21) ∧
      (21 ≤ minor → java_major_for_mc s = 21)) ∧
    (∀ s, parseVersionNum s = none → java_major_for_mc s = 17) ∧
    java_major_for_mc "1.16.5" = 8 ∧ java_major_for_mc "1.17.1" = 16 ∧
    java_major_for_mc "1.20.4" = 17 ∧ java_major_for_mc "1.20.6" = 21 ∧
    java_major_for_mc "1.21.0" = 21 := by
  refine ⟨?_, ?_, by decide, by decide, by decide, by decide, by decide⟩
  · intro s maj minor patch h
    simp only [java_major_for_mc, h]
    refine ⟨?_, ?_, ?_, ?_, ?_⟩ <;> intros <;> split_ifs <;> omega
  · intro s h
    simp only [java_major_for_mc, h]

/-- Witness for C2: the mapping theorem applied at concrete parses. -/
theorem C2_java_major_mapping_witness :
    java_major_for_mc "1.18.2" = 17 ∧ java_major_for_mc "no version here" = 17 :=
  ⟨(C2_java_major_mapping.1 "1.18.2" 1 18 2 (by decide)).2.2.1 (by omega) (by omega) (by omega),
   C2_java_major_mapping.2.1 "no version here" (by decide)⟩

/-- Folding the running-instance heap accumulation equals the sum over
the running sublist. -/
theorem running_xmx_foldl (w : ProbeWorld) (l : List MinecraftServer) (a : Int) :
    l.foldl (fun acc s => if is_running w s then acc + s.xmx else acc) a
      = a + ((l.filter (fun s => is_running w s)).map (fun s => s.xmx)).sum := by
  induction l generalizing a with
  | nil => simp
  | cons s l ih =>
    simp only [List.foldl_cons, List.filter_cons]
    by_cases h : is_running w s
    · simp only [h, if_pos, List.map_cons, List.sum_cons]
      rw [ih]
      ring
    · simp only [h, if_neg, Bool.false_eq_true, ite_false]
      rw [ih]

/-- C3: the available-memory computation returns
`max 0 (32 - reserveGB - Σ xmx of running instances)` (the host total
is the hard-coded 32 GB), the result is never negative, and with
reserve 30 and one running instance with `xmx = 8` the result is 0. -/
theorem C3_available_memory (w : ProbeWorld) (servers : List MinecraftServer)
    (reserve_gb : Int) :
    get_available_memory_gb w servers reserve_gb
      = max 0 (32 - reserve_gb
          - ((servers.filter (fun s => is_running w s)).map (fun s => s.xmx)).sum) ∧
    0 ≤ get_available_memory_gb w servers reserve_gb ∧
    get_available_memory_gb probeW [sRun8] 30 = 0 := by
  have key : get_available_memory_gb w servers reserve_gb
      = max 0 (32 - reserve_gb
          - ((servers.filter (fun s => is_running w s)).map (fun s => s.xmx)).sum) := by
    simp only [get_available_memory_gb, running_xmx_foldl]
    rw [max_def]
    split_ifs <;> omega
  refine ⟨key, ?_, by decide⟩
  rw [key]
  exact le_max_left _ _

/-- C4: the detection heuristics form a precedence list — whenever the
version-manifest heuristic (1) produces a version, detection returns
it, whatever the later heuristics would say; concretely, a directory
with both a `versions/1.20.4/` manifest and a root archive named for
1.19.2 yields `1.20.4` even though the root-jar heuristic (2) alone
would yield `1.19.2`. -/
theorem C4_heuristic_precedence :
    (∀ (fs : FS) (v : String), fs.isDir [] = true → heuristic1 fs = some v →
      detect_mc_version fs = some v) ∧
    detect_mc_version fsC4 = some "1.20.4" ∧
    heuristic1 fsC4 = some "1.20.4" ∧
    heuristic2 fsC4 = some "1.19.2" := by
  refine ⟨?_, by decide, by decide, by decide⟩
  intro fs v hdir h1
  simp only [detect_mc_version, hdir, if_true, h1]

/-- Witness for C4: the precedence theorem applied to the concrete
two-artifact installation. -/
theorem C4_heuristic_precedence_witness :
    detect_mc_version fsC4 = some "1.20.4" :=
  C4_heuristic_precedence.1 fsC4 "1.20.4" (by decide) (by decide)

/-- C5: `send_command` fails with `-1` whenever no owned process
handle is present (whatever pid is recorded); with an owned handle, a
stdin pipe, a live (`poll`) child and an intact pipe, it writes the
command with a trailing newline appended when absent, flushes and
returns 0; a broken pipe (I/O fault) or a failed liveness check yields
`-1`. -/
theorem C5_send_command_ownership (w : ProbeWorld) (s : MinecraftServer) (cmd : String) :
    (s.proc = none → send_command w s cmd = (-1, s)) ∧
    (∀ p ch, s.proc = some p → p.stdin = some ch → p.pollNone = true → ch.broken = false →
      send_command w s cmd =
        (0, { s with proc := some { p with stdin := some { ch with
              buffer := ch.buffer ++
                (if "\n".data.isSuffixOf cmd.data then cmd else cmd ++ "\n") } } })) ∧
    (∀ p ch, s.proc = some p → p.stdin = some ch → ch.broken = true →
      (send_command w s cmd).1 = -1) ∧
    (∀ p, s.proc = some p → p.pollNone = false → (send_command w s cmd).1 = -1) := by
  refine ⟨?_, ?_, ?_, ?_⟩
  · intro h
    simp only [send_command, h]
  · intro p ch hp hch hlive hok
    simp only [send_command, hp, hch, is_running, hlive, hok]
    simp
  · intro p ch hp hch hbroken
    simp only [send_command, hp, hch, is_running, hbroken]
    by_cases hlive : p.pollNone <;> simp [hlive]
  · intro p hp hdead
    simp only [send_command, hp, is_running, hdead]
    cases p.stdin <;> simp

/-- Witness for C5: a session-owned instance accepts a command (the
newline is appended and the pipe flushed); a merely discovered
instance, pid recorded or not, always fails. -/
theorem C5_send_command_ownership_witness :
    send_command probeW sOwned "list" =
      (0, { sOwned with proc := some ⟨true, some ⟨false, "list\n"⟩⟩ }) ∧
    send_command probeW sForeign "list" = (-1, sForeign) := by
  constructor
  · exact (C5_send_command_ownership probeW sOwned "list").2.1
      ⟨true, some ⟨false, ""⟩⟩ ⟨false, ""⟩ rfl rfl rfl rfl
  · exact (C5_send_command_ownership probeW sForeign "list").1 rfl

/-- C10: in the resolver's output the required major is present exactly
when a version was detected — either the whole triple is absent, or
both the detected version and the required major are present (only the
runtime binary may be absent on its own); in particular a failed
detection yields the all-absent triple. -/
theorem C10_resolver_field_coupling (fs : FS) (findJava : Nat → Option String) :
    (detect_mc_version fs = none →
      resolve_java_for_server fs findJava = (none, none, none)) ∧
    (resolve_java_for_server fs findJava = (none, none, none) ∨
      ∃ exe mc major, resolve_java_for_server fs findJava = (exe, some mc, some major)) := by
  constructor
  · intro h
    simp only [resolve_java_for_server, h]
  · unfold resolve_java_for_server
    cases detect_mc_version fs with
    | none => exact Or.inl rfl
    | some mc =>
      by_cases h : mc = ""
      · exact Or.inl (by simp [h])
      · exact Or.inr ⟨findJava (java_major_for_mc mc), mc, java_major_for_mc mc, by simp [h]⟩

/-- Witness for C10: on an empty filesystem nothing is detected and
the resolver returns the all-absent triple. -/
theorem C10_resolver_field_coupling_witness :
    resolve_java_for_server fsEmpty (fun _ => none) = (none, none, none) :=
  (C10_resolver_field_coupling fsEmpty (fun _ => none)).1 (by decide)

/-- C7: `get_servers` builds one instance per direct subdirectory of
the root, each with the fixed default heaps `xmx=4, xms=2`, returns
them sorted by case-insensitive name, and returns `[]` for a missing
or non-directory root. -/
theorem C7_discover_registry (fs : FS) (rootPath : String) :
    List.Sorted serverLe (get_servers fs rootPath) ∧
    (fs.isDir [] = false → get_servers fs rootPath = []) ∧
    (fs.isDir [] = true →
      (get_servers fs rootPath).Perm ((fs.listDir []).filterMap (fun entry =>
        if fs.isDir [entry] then
          some (mkMinecraftServer (rootPath ++ "/" ++ entry) (.intVal 4) (.intVal 2) (some entry))
        else none))) ∧
    (∀ s ∈ get_servers fs rootPath, s.xmx = 4 ∧ s.xms = 2) := by
  refine ⟨?_, ?_, ?_, ?_⟩
  · unfold get_servers
    by_cases h : fs.isDir []
    · rw [if_neg (by simp [h])]
      exact List.sorted_insertionSort serverLe _
    · rw [if_pos (by simp [h])]
      exact List.sorted_nil
  · intro h
    unfold get_servers
    rw [if_pos (by simp [h])]
  · intro h
    unfold get_servers
    rw [if_neg (by simp [h])]
    exact List.perm_insertionSort serverLe _
  · intro s hs
    unfold get_servers at hs
    split_ifs at hs with h
    · simp at hs
      obtain ⟨entry, -, -, rfl⟩ := hs
      exact ⟨rfl, rfl⟩
    · simp at hs

/-- Witness for C7: the registry theorem applied to a missing root and
to a concrete root with three subdirectories. -/
theorem C7_discover_registry_witness :
    get_servers fsEmpty "/x" = [] ∧
    (get_servers fsRoot "/root").Perm ((fsRoot.listDir []).filterMap (fun entry =>
      if fsRoot.isDir [entry] then
        some (mkMinecraftServer ("/root" ++ "/" ++ entry) (.intVal 4) (.intVal 2) (some entry))
      else none)) ∧
    ((mkMinecraftServer "/root/a" (.intVal 4) (.intVal 2) (some "a")).xmx = 4 ∧
     (mkMinecraftServer "/root/a" (.intVal 4) (.intVal 2) (some "a")).xms = 2) :=
  ⟨(C7_discover_registry fsEmpty "/x").2.1 rfl,
   (C7_discover_registry fsRoot "/root").2.2.1 rfl,
   (C7_discover_registry fsRoot "/root").2.2.2 _ (by decide)⟩

/-- C8 counterexample: the claim says a version string `1.20.0` is
never returned, but a root archive named `minecraft_server.1.20.0.jar`
makes detection return the raw embedded token `1.20.0` (heuristic 2
does not re-format), which differs from the formatted `1.20`. -/
theorem C8_counterexample :
    detect_mc_version fsC8 = some "1.20.0" ∧
    parseVersionNum "1.20.0" = some (1, 20, 0) ∧
    fmtMcVersion (1, 20, 0) = "1.20" ∧
    ("1.20.0" : String) ≠ "1.20" :=
  ⟨by decide, by decide, by decide, by decide⟩

/-- C8 amended: the formatter omits the patch when it is 0, and patch
defaults to 0 when the token has no third component; this formatting
applies to the heuristics that re-format a parsed triple — the
directory-name branch of heuristic 1 and the `.json` heuristic 3 — but
the jar-filename and log-banner branches return the embedded token
verbatim, so those can return a trailing-`.0` version. -/
theorem C8_patch_formatting_amended :
    (∀ maj minor : Nat, fmtMcVersion (maj, minor, 0) = toString maj ++ "." ++ toString minor) ∧
    (∀ fs entry p, fs.isDir ["versions", entry] = true → parseVersionNum entry = some p →
      h1Entry fs entry = some (fmtMcVersion p)) ∧
    (∀ fs v, heuristic3 fs = some v → ∃ p, v = fmtMcVersion p) ∧
    parseVersionNum "1.20" = some (1, 20, 0) := by
  refine ⟨?_, ?_, ?_, by decide⟩
  · intro maj minor
    simp [fmtMcVersion]
  · intro fs entry p hdir hp
    simp only [h1Entry, hdir, if_true, hp]
  · intro fs v h
    obtain ⟨f, -, hf⟩ := List.exists_of_findSome?_eq_some h
    by_cases hj : ".json".data.isSuffixOf f.data
    · rw [if_pos hj] at hf
      obtain ⟨p, -, hv⟩ := Option.map_eq_some'.mp hf
      exact ⟨p, hv.symm⟩
    · rw [if_neg hj] at hf
      cases hf

/-- Witness for C8: the amended theorem applied to the concrete
manifest directory and `.json` installation. -/
theorem C8_patch_formatting_amended_witness :
    h1Entry fsC4 "1.20.4" = some (fmtMcVersion (1, 20, 4)) ∧
    (∃ p, "1.20.4" = fmtMcVersion p) :=
  ⟨C8_patch_formatting_amended.2.1 fsC4 "1.20.4" (1, 20, 4) (by decide) (by decide),
   C8_patch_formatting_amended.2.2.1 fsJson "1.20.4" (by decide)⟩

/-- C9 counterexample: the claim says non-positive heap values are
normalized to the sentinel `-1` at construction, but constructing with
`xmx = xms = 0` stores `0` unchanged. -/
theorem C9_counterexample :
    mkMinecraftServer "/srv/a" (.intVal 0) (.intVal 0) (some "a")
      = { path := "/srv/a", xmx := 0, xms := 0, name := some "a" } ∧
    (0 : Int) ≠ -1 :=
  ⟨rfl, by decide⟩

/-- C9 amended: construction never fails for any input; only
non-integer-convertible values are normalized (both heap fields to
`-1`); integer values — including non-positive ones and pairs with
`maxHeap < initHeap` — are stored unchanged and rejected only later by
`start`. -/
theorem C9_construction_amended :
    (∀ path name (a b : Int),
      (mkMinecraftServer path (.intVal a) (.intVal b) name).xmx = a ∧
      (mkMinecraftServer path (.intVal a) (.intVal b) name).xms = b) ∧
    (∀ path name v u, v = HeapInput.nonConvertible ∨ u = HeapInput.nonConvertible →
      (mkMinecraftServer path v u name).xmx = -1 ∧
      (mkMinecraftServer path v u name).xms = -1) := by
  constructor
  · intro path name a b
    exact ⟨rfl, rfl⟩
  · rintro path name v u (rfl | rfl)
    · exact ⟨rfl, rfl⟩
    · cases v <;> exact ⟨rfl, rfl⟩

/-- Witness for C9: the amended theorem applied to a non-convertible
first heap argument. -/
theorem C9_construction_amended_witness :
    (mkMinecraftServer "/p" .nonConvertible (.intVal 3) (some "n")).xmx = -1 ∧
    (mkMinecraftServer "/p" .nonConvertible (.intVal 3) (some "n")).xms = -1 :=
  C9_construction_amended.2 "/p" (some "n") _ _ (Or.inl rfl)

/-! ### Lemmas about the heap-arguments file rewrite -/

/-- Unfolding equation: splitting the empty tail closes the line. -/
theorem splitLinesGo_nil (acc : List Char) : splitLinesGo [] acc = [acc.reverse] := rfl

/-- Unfolding equation: a final newline closes the last line. -/
theorem splitLinesGo_newline_nil (acc : List Char) :
    splitLinesGo ['\n'] acc = [acc.reverse] := rfl

/-- Unfolding equation: an interior newline emits the accumulated line. -/
theorem splitLinesGo_newline_cons (r : Char) (rs acc : List Char) :
    splitLinesGo ('\n' :: r :: rs) acc = acc.reverse :: splitLinesGo (r :: rs) [] := rfl

/-- Unfolding equation: an ordinary character is accumulated. -/
theorem splitLinesGo_other (c : Char) (rest acc : List Char) (hc : ¬ c = '\n') :
    splitLinesGo (c :: rest) acc = splitLinesGo rest (c :: acc) := by
  have hu : splitLinesGo (c :: rest) acc =
      if c = '\n' then
        (match rest with
          | [] => [acc.reverse]
          | _ :: _ => acc.reverse :: splitLinesGo rest [] : List (List Char))
      else splitLinesGo rest (c :: acc) := rfl
  rw [hu, if_neg hc]

/-- Every line produced by the line splitter is newline-free. -/
theorem splitLinesGo_no_newline : ∀ (cs acc : List Char), '\n' ∉ acc →
    ∀ l ∈ splitLinesGo cs acc, '\n' ∉ l
  | [], acc, h => by
    intro l hl
    rw [splitLinesGo_nil, List.mem_singleton] at hl
    subst hl
    simpa using h
  | c :: rest, acc, h => by
    intro l hl
    by_cases hc : c = '\n'
    · subst hc
      cases rest with
      | nil =>
        rw [splitLinesGo_newline_nil, List.mem_singleton] at hl
        subst hl
        simpa using h
      | cons r rs =>
        rw [splitLinesGo_newline_cons, List.mem_cons] at hl
        rcases hl with rfl | hl
        · simpa using h
        · exact splitLinesGo_no_newline (r :: rs) [] (by simp) l hl
    · rw [splitLinesGo_other c rest acc hc] at hl
      refine splitLinesGo_no_newline rest (c :: acc) ?_ l hl
      intro hm
      rcases List.mem_cons.mp hm with h1 | h2
      · exact hc h1.symm
      · exact h h2

/-- Every line of a split file content is newline-free. -/
theorem splitLines_no_newline (cs : List Char) : ∀ l ∈ splitLines cs, '\n' ∉ l := by
  rw [splitLines]
  split_ifs
  · simp
  · exact splitLinesGo_no_newline cs [] (by simp)

/-- Splitting a newline-terminated newline-free line yields that line. -/
theorem splitLinesGo_line_end : ∀ (l acc : List Char), '\n' ∉ l →
    splitLinesGo (l ++ ['\n']) acc = [acc.reverse ++ l]
  | [], acc, _ => by
    rw [List.nil_append, splitLinesGo_newline_nil, List.append_nil]
  | c :: l, acc, h => by
    have hc : ¬ c = '\n' := fun e => h (by simp [e])
    have hl : '\n' ∉ l := fun m => h (List.mem_cons_of_mem _ m)
    rw [List.cons_append, splitLinesGo_other c _ acc hc]
    rw [splitLinesGo_line_end l (c :: acc) hl]
    simp

/-- Splitting past an interior newline peels off one line. -/
theorem splitLinesGo_line_more : ∀ (l rest acc : List Char), '\n' ∉ l → rest ≠ [] →
    splitLinesGo (l ++ '\n' :: rest) acc = (acc.reverse ++ l) :: splitLinesGo rest []
  | [], rest, acc, _, hr => by
    cases rest with
    | nil => exact absurd rfl hr
    | cons r rs =>
      rw [List.nil_append, splitLinesGo_newline_cons, List.append_nil]
  | c :: l, rest, acc, h, hr => by
    have hc : ¬ c = '\n' := fun e => h (by simp [e])
    have hl : '\n' ∉ l := fun m => h (List.mem_cons_of_mem _ m)
    rw [List.cons_append, splitLinesGo_other c _ acc hc]
    rw [splitLinesGo_line_more l rest (c :: acc) hl hr]
    simp

/-- Writing newline-free lines with `"\n".join` plus a trailing newline
and re-reading them is the identity. -/
theorem splitLines_joinNl : ∀ (ls : List (List Char)), ls ≠ [] → (∀ l ∈ ls, '\n' ∉ l) →
    splitLines (joinNl ls ++ ['\n']) = ls
  | [], h, _ => absurd rfl h
  | [l], _, hnl => by
    have hl : '\n' ∉ l := hnl l (by simp)
    show splitLines (l ++ ['\n']) = [l]
    rw [splitLines, if_neg (by simp)]
    rw [splitLinesGo_line_end l [] hl]
    simp
  | l :: l2 :: ls, _, hnl => by
    have h1 : '\n' ∉ l := hnl l (by simp)
    have hrest : ∀ x ∈ l2 :: ls, '\n' ∉ x := fun x hx => hnl x (by simp [hx])
    have hjoin : joinNl (l :: l2 :: ls) = l ++ '\n' :: joinNl (l2 :: ls) := rfl
    rw [hjoin, List.append_assoc, List.cons_append]
    rw [splitLines, if_neg (by simp)]
    rw [splitLinesGo_line_more l _ [] h1 (by simp)]
    simp only [List.reverse_nil, List.nil_append]
    congr 1
    have hrec := splitLines_joinNl (l2 :: ls) (by simp) hrest
    rw [splitLines, if_neg (by simp)] at hrec
    exact hrec

/-- `Nat.digitChar` never yields a newline. -/
theorem digitChar_ne_newline (n : Nat) : Nat.digitChar n ≠ '\n' := by
  rcases Nat.lt_or_ge n 16 with h | h
  · interval_cases n <;> decide
  · have hstar : Nat.digitChar n = '*' := by
      unfold Nat.digitChar
      repeat rw [if_neg (by omega)]
    rw [hstar]
    decide

/-- `Nat.toDigitsCore` only adds digit characters, never a newline. -/
theorem toDigitsCore_ne_newline (b : Nat) : ∀ (fuel n : Nat) (ds : List Char),
    (∀ c ∈ ds, c ≠ '\n') → ∀ c ∈ Nat.toDigitsCore b fuel n ds, c ≠ '\n'
  | 0, _, _, h => h
  | fuel + 1, n, ds, h => by
    intro c hc
    simp only [Nat.toDigitsCore] at hc
    split_ifs at hc
    · rcases List.mem_cons.mp hc with rfl | hmem
      · exact digitChar_ne_newline _
      · exact h c hmem
    · refine toDigitsCore_ne_newline b fuel (n / b) (Nat.digitChar (n % b) :: ds) ?_ c hc
      intro d hd
      rcases List.mem_cons.mp hd with rfl | hmem
      · exact digitChar_ne_newline _
      · exact h d hmem

/-- The decimal rendering of an integer contains no newline. -/
theorem toString_int_no_newline (n : Int) : '\n' ∉ (toString n).data := by
  intro hm
  cases n with
  | ofNat m =>
    exact toDigitsCore_ne_newline 10 (m + 1) m [] (by simp) '\n' hm rfl
  | negSucc m =>
    have : (toString (Int.negSucc m)).data
        = '-' :: (Nat.toDigits 10 (m + 1)) := rfl
    rw [this] at hm
    rcases List.mem_cons.mp hm with h | h
    · exact absurd h.symm (by decide)
    · exact toDigitsCore_ne_newline 10 (m + 2) (m + 1) [] (by simp) '\n' h rfl

/-- The generated max-heap line contains no newline. -/
theorem xmxLine_no_newline (n : Int) : '\n' ∉ xmxLine n := by
  intro hm
  simp only [xmxLine, List.mem_append, List.mem_cons] at hm
  rcases hm with (h | h) | h
  · revert h; decide
  · exact toString_int_no_newline n h
  · revert h; decide

/-- The generated initial-heap line contains no newline. -/
theorem xmsLine_no_newline (n : Int) : '\n' ∉ xmsLine n := by
  intro hm
  simp only [xmsLine, List.mem_append, List.mem_cons] at hm
  rcases hm with (h | h) | h
  · revert h; decide
  · exact toString_int_no_newline n h
  · revert h; decide

/-- Stripping a string whose first and last characters are non-space is
the identity. -/
theorem pyStripL_keep_ends (c d : Char) (mid : List Char)
    (hc : isPySpace c = false) (hd : isPySpace d = false) :
    pyStripL (c :: (mid ++ [d])) = c :: (mid ++ [d]) := by
  unfold pyStripL
  rw [List.dropWhile_cons]
  simp only [hc, Bool.false_eq_true, if_false]
  rw [List.reverse_cons, List.reverse_append]
  simp only [List.reverse_cons, List.reverse_nil, List.nil_append, List.singleton_append,
    List.cons_append]
  rw [List.dropWhile_cons]
  simp only [hd, Bool.false_eq_true, if_false]
  simp [List.reverse_append]

/-- A list is a prefix of itself followed by anything
(`isPrefixOf` form). -/
theorem isPrefixOf_append_self : ∀ (pre rest : List Char), pre.isPrefixOf (pre ++ rest) = true
  | [], _ => by simp [List.isPrefixOf]
  | a :: as, rest => by simp [List.isPrefixOf, isPrefixOf_append_self as rest]

/-- The generated max-heap line is recognized as a max-heap line and
not as an initial-heap line. -/
theorem xmxLine_class (n : Int) :
    isXmxLine (xmxLine n) = true ∧ isXmsLine (xmxLine n) = false := by
  have hd4 : "-Xmx".data = ['-', 'X', 'm', 'x'] := rfl
  have hstrip : pyStripL (xmxLine n) = xmxLine n := by
    have hsh : xmxLine n = '-' :: ((['X', 'm', 'x'] ++ (toString n).data) ++ ['G']) := by
      rw [xmxLine, hd4, List.cons_append, List.cons_append]
    rw [hsh]
    exact pyStripL_keep_ends '-' 'G' _ (by decide) (by decide)
  constructor
  · rw [isXmxLine, hstrip, xmxLine]
    exact isPrefixOf_append_self _ _
  · rw [isXmsLine, hstrip, xmxLine, hd4]
    have hne : (('s' == 'x') : Bool) = false := by decide
    have hd4s : "-Xms".data = ['-', 'X', 'm', 's'] := rfl
    rw [hd4s]
    simp [List.isPrefixOf, hne]

/-- The generated initial-heap line is recognized as an initial-heap
line and not as a max-heap line. -/
theorem xmsLine_class (n : Int) :
    isXmsLine (xmsLine n) = true ∧ isXmxLine (xmsLine n) = false := by
  have hd4 : "-Xms".data = ['-', 'X', 'm', 's'] := rfl
  have hstrip : pyStripL (xmsLine n) = xmsLine n := by
    have hsh : xmsLine n = '-' :: ((['X', 'm', 's'] ++ (toString n).data) ++ ['G']) := by
      rw [xmsLine, hd4, List.cons_append, List.cons_append]
    rw [hsh]
    exact pyStripL_keep_ends '-' 'G' _ (by decide) (by decide)
  constructor
  · rw [isXmsLine, hstrip, xmsLine]
    exact isPrefixOf_append_self _ _
  · rw [isXmxLine, hstrip, xmsLine, hd4]
    have hne : (('x' == 's') : Bool) = false := by decide
    have hd4x : "-Xmx".data = ['-', 'X', 'm', 'x'] := rfl
    rw [hd4x]
    simp [List.isPrefixOf, hne]

/-- Filtering an already-rewritten line list removes exactly the two
appended heap lines. -/
theorem filter_keepLineL_rewrite (x m : Int) (lines : List (List Char)) :
    (rewriteJvmLines x m lines).filter keepLineL = lines.filter keepLineL := by
  unfold rewriteJvmLines
  rw [List.filter_append]
  have h2 : [xmxLine x, xmsLine m].filter keepLineL = [] := by
    simp [List.filter, keepLineL, (xmxLine_class x).1, (xmsLine_class m).1]
  rw [h2, List.append_nil, List.filter_eq_self]
  exact fun a ha => List.of_mem_filter ha

/-- Reading back the rewritten heap-arguments file yields exactly the
rewritten line list. -/
theorem splitLines_rewriteJvmFile (x m : Int) (content : String) :
    splitLines (rewriteJvmFile x m content).data
      = rewriteJvmLines x m (splitLines content.data) := by
  show splitLines (joinNl (rewriteJvmLines x m (splitLines content.data)) ++ ['\n'])
      = rewriteJvmLines x m (splitLines content.data)
  apply splitLines_joinNl
  · simp [rewriteJvmLines]
  · intro l hl
    unfold rewriteJvmLines at hl
    rcases List.mem_append.mp hl with h | h
    · exact splitLines_no_newline content.data l (List.mem_of_mem_filter h)
    · rcases List.mem_cons.mp h with rfl | h
      · exact xmxLine_no_newline x
      · rcases List.mem_cons.mp h with rfl | h
        · exact xmsLine_no_newline m
        · simp at h

/-- C6 counterexample: a line `"  -Xmx2G"` does not begin with either
heap-flag prefix, yet the rewrite removes it (the code strips
whitespace before testing the prefix), so the claim's "every line not
beginning with either heap-flag prefix is preserved" fails. -/
theorem C6_counterexample :
    "  -Xmx2G".data ∈ splitLines badContent.data ∧
    "-Xmx".data.isPrefixOf "  -Xmx2G".data = false ∧
    "-Xms".data.isPrefixOf "  -Xmx2G".data = false ∧
    "  -Xmx2G".data ∉ splitLines (rewriteJvmFile 4 2 badContent).data :=
  ⟨by decide, by decide, by decide, by decide⟩

/-- C6 amended: the heap-arguments rewrite is idempotent; the result
holds exactly one max-heap and one init-heap line; every line whose
whitespace-stripped form begins with neither heap-flag prefix is
preserved verbatim and in order (lines whose stripped form begins with
a heap flag are removed even when leading whitespace means the raw
line does not begin with it); and the output ends with a newline. -/
theorem C6_jvm_rewrite_idempotent_amended (content : String) (xmx xms : Int) :
    rewriteJvmFile xmx xms (rewriteJvmFile xmx xms content) = rewriteJvmFile xmx xms content ∧
    splitLines (rewriteJvmFile xmx xms content).data
      = (splitLines content.data).filter keepLineL ++ [xmxLine xmx, xmsLine xms] ∧
    (splitLines (rewriteJvmFile xmx xms content).data).countP isXmxLine = 1 ∧
    (splitLines (rewriteJvmFile xmx xms content).data).countP isXmsLine = 1 ∧
    (rewriteJvmFile xmx xms content).data.getLast? = some '\n' := by
  have hsplit := splitLines_rewriteJvmFile xmx xms content
  have hzero : ∀ (p : List Char → Bool),
      (∀ a, keepLineL a = true → p a = false) →
      ((splitLines content.data).filter keepLineL).countP p = 0 := by
    intro p hp
    rw [List.countP_eq_zero]
    intro a ha
    simp [hp a (List.of_mem_filter ha)]
  refine ⟨?_, hsplit.trans rfl, ?_, ?_, ?_⟩
  · show (joinNl (rewriteJvmLines xmx xms
        (splitLines (rewriteJvmFile xmx xms content).data)) ++ ['\n']).asString = _
    rw [hsplit]
    have hfix : rewriteJvmLines xmx xms (rewriteJvmLines xmx xms (splitLines content.data))
        = rewriteJvmLines xmx xms (splitLines content.data) := by
      conv_lhs => rw [rewriteJvmLines]
      rw [filter_keepLineL_rewrite]
      rfl
    rw [hfix, rewriteJvmFile]
  · rw [hsplit]
    unfold rewriteJvmLines
    rw [List.countP_append, hzero isXmxLine (fun a ha => by
      simp [keepLineL] at ha
      exact ha.1)]
    simp [List.countP_cons, (xmxLine_class xmx).1, (xmsLine_class xms).2]
  · rw [hsplit]
    unfold rewriteJvmLines
    rw [List.countP_append, hzero isXmsLine (fun a ha => by
      simp [keepLineL] at ha
      exact ha.2)]
    simp [List.countP_cons, (xmxLine_class xmx).2, (xmsLine_class xms).1]
  · show (joinNl (rewriteJvmLines xmx xms (splitLines content.data)) ++ ['\n']).getLast?
        = some '\n'
    exact List.getLast?_concat _

end McMultihost
